import Mathlib

/-!
Shallow embedding of the stability-calculator core
(`modules/data_parser.py` and `modules/stability_calculator.py`).

Numbers are modelled exactly: Python floats become elements of a linear
ordered field (instantiated at `ℚ` for executable checks and at `ℝ` where
the real sine function is needed).  Fallible operations (Python
`raise ValueError`) become `Option`-valued functions returning `none` on
the error path.  The trigonometric call `np.sin(np.radians(angle))` is
passed in as an explicit function parameter `sinDeg`, instantiated with
`fun a => Real.sin (a * Real.pi / 180)` in the theorems that need it.
-/

namespace Loadicator

variable {α : Type} [LinearOrderedField α]

/-- Minimum of a list, `none` on the empty list.  Models Python's `min(...)`
builtin and numpy's `.min()` as used by the parser module. -/
def listMin : List α → Option α
  | [] => none
  | a :: t =>
    match listMin t with
    | none => some a
    | some b => some (min a b)

/-- Maximum of a list, `none` on the empty list.  Models Python's `max(...)`
builtin and numpy's `.max()` as used by the parser module. -/
def listMax : List α → Option α
  | [] => none
  | a :: t =>
    match listMax t with
    | none => some a
    | some b => some (max a b)

/-- Interior walk of `np.interp`: `x0, y0` is the last node already passed
(`x0 < x`), and the walk looks for the first `x1` with `x ≤ x1`, returning
the linear interpolation on the bracketing pair, or the last `y` (numpy's
right clamp) when the nodes run out. -/
def npInterpGo (x : α) : α → α → List α → List α → α
  | x0, y0, x1 :: xs, y1 :: ys =>
    if x ≤ x1 then y0 + (y1 - y0) * (x - x0) / (x1 - x0)
    else npInterpGo x x1 y1 xs ys
  | _, y0, _, _ => y0

/-- Model of `np.interp(x, xs, ys)` for strictly increasing `xs`:
clamps to `ys.head` on the left, to the last `y` on the right, and linearly
interpolates on the bracketing pair otherwise.  (The callers in the source
always range-check `x` first, so the clamping branches are never the ones
a claim depends on.) -/
def npInterp (x : α) (xs ys : List α) : α :=
  match xs, ys with
  | x0 :: xs1, y0 :: ys1 => if x ≤ x0 then y0 else npInterpGo x x0 y0 xs1 ys1
  | _, _ => 0

/-- Loaded ship data, the model of a `ShipDataParser` after `_load_data`:
the two columns of the "Displacement Table" sheet, the displacement axis of
the "KN Curves" sheet, and its heel-angle columns (angle label already
parsed to a number, paired with the column values, in sheet column order). -/
structure ShipData (α : Type) where
  drafts : List α
  displacements : List α
  knDisplacements : List α
  knColumns : List (α × List α)

/-- Model of `ShipDataParser.get_displacement_from_draft`: range-check the
draft against the min/max of the draft column, then `np.interp`. -/
def get_displacement_from_draft (S : ShipData α) (draft : α) : Option α :=
  match listMin S.drafts, listMax S.drafts with
  | some lo, some hi =>
    if draft < lo ∨ draft > hi then none
    else some (npInterp draft S.drafts S.displacements)
  | _, _ => none

/-- Numeric heel angles of the KN-curve columns, in sheet column order
(the source parses them out of the column labels; label parsing happens at
load time in this model, so the angles are already numbers). -/
def knAngles (S : ShipData α) : List α :=
  S.knColumns.map Prod.fst

/-- Model of the column-search loop in `get_kn_value`: the source loop
`if angle == a: col = c` keeps overwriting, so the last matching column
wins; hence `getLast?` of the filtered list. -/
def findColumn (cols : List (α × List α)) (a : α) : Option (List α) :=
  ((cols.filter (fun c => decide (c.1 = a))).getLast?).map Prod.snd

/-- Model of `ShipDataParser.get_kn_value`: check the angle list is
non-empty and the heel angle in range, check the displacement in range,
bracket the heel angle between `angle_low`/`angle_high` (max of the angles
`≤ heel`, min of the angles `≥ heel`; the source sorts first, which does
not change a max or min), interpolate each bracketing column at the
displacement, and blend linearly across the angle gap unless the bracket
is degenerate (exact column match). -/
def get_kn_value (S : ShipData α) (displacement heel : α) : Option α :=
  match listMin (knAngles S), listMax (knAngles S) with
  | some aMin, some aMax =>
    if heel < aMin ∨ heel > aMax then none
    else
      match listMin S.knDisplacements, listMax S.knDisplacements with
      | some dMin, some dMax =>
        if displacement < dMin ∨ displacement > dMax then none
        else
          match listMax ((knAngles S).filter (fun a => decide (a ≤ heel))),
                listMin ((knAngles S).filter (fun a => decide (heel ≤ a))) with
          | some aLow, some aHigh =>
            match findColumn S.knColumns aLow, findColumn S.knColumns aHigh with
            | some colLow, some colHigh =>
              let knLow := npInterp displacement S.knDisplacements colLow
              let knHigh := npInterp displacement S.knDisplacements colHigh
              if aLow = aHigh then some knLow
              else some (knLow + (knHigh - knLow) * (heel - aLow) / (aHigh - aLow))
            | _, _ => none
          | _, _ => none
      | _, _ => none
  | _, _ => none

/-- Stable insertion into a sorted list, the building block of the model of
Python's `sorted(...)`. -/
def insertSorted (a : α) : List α → List α
  | [] => [a]
  | b :: t => if a ≤ b then a :: b :: t else b :: insertSorted a t

/-- Model of Python's `sorted(...)` (ascending insertion sort). -/
def pySorted : List α → List α
  | [] => []
  | a :: t => insertSorted a (pySorted t)

/-- Model of `ShipDataParser.get_available_heel_angles`: the parsed column
angles, ascending. -/
def get_available_heel_angles (S : ShipData α) : List α :=
  pySorted (knAngles S)

/-- Model of `ShipDataParser.get_draft_range`: `(min, max)` of the draft
column, `(0, 0)` when the table is missing/empty. -/
def get_draft_range (S : ShipData α) : α × α :=
  match listMin S.drafts, listMax S.drafts with
  | some lo, some hi => (lo, hi)
  | _, _ => (0, 0)

/-- Model of `StabilityCalculator.calculate_kg`:
`KG_BASE_FACTOR * draft + (load / 1e6) * KG_LOAD_ADJUSTMENT` with
`KG_BASE_FACTOR = 0.45` and `KG_LOAD_ADJUSTMENT = 0.05`. -/
def calculate_kg (load_kg draft_m : α) : α :=
  (45 / 100) * draft_m + (load_kg / 1000000) * (5 / 100)

/-- Model of `StabilityCalculator.calculate_gz_with_kg`.  `sinDeg` stands
for `fun a => np.sin(np.radians(a))`; `heel_angles = none` models the
Python default argument (use all available heel angles).  Any failing KN
lookup aborts the whole computation, as the uncaught exception would. -/
def calculate_gz_with_kg (S : ShipData α) (sinDeg : α → α) (draft_m kg : α)
    (heel_angles : Option (List α)) : Option (List α × List α × α) :=
  match get_displacement_from_draft S draft_m with
  | none => none
  | some displacement =>
    let angles := heel_angles.getD (get_available_heel_angles S)
    (angles.mapM (fun a => (get_kn_value S displacement a).map
      (fun kn => kn - kg * sinDeg a))).map
      (fun gz_values => (angles, gz_values, displacement))

/-- Model of `StabilityCalculator.calculate_gz`: same loop as
`calculate_gz_with_kg` but with `kg` computed by `calculate_kg` and
returned as a fourth component. -/
def calculate_gz (S : ShipData α) (sinDeg : α → α) (draft_m load_kg : α)
    (heel_angles : Option (List α)) : Option (List α × List α × α × α) :=
  match get_displacement_from_draft S draft_m with
  | none => none
  | some displacement =>
    let kg := calculate_kg load_kg draft_m
    let angles := heel_angles.getD (get_available_heel_angles S)
    (angles.mapM (fun a => (get_kn_value S displacement a).map
      (fun kn => kn - kg * sinDeg a))).map
      (fun gz_values => (angles, gz_values, displacement, kg))

/-- Outcome messages of `StabilityCalculator.validate_input`.  Each
constructor stands for the literal message string returned by the source,
carrying the numeric bound interpolated into that string; `ok` stands for
the empty message of the success case. -/
inductive ValidationMsg (α : Type) where
  | draftTooLow (minDraft : α)
  | draftTooHigh (maxDraft : α)
  | kgNotPositive
  | kgTooHigh (bound : α)
  | ok
deriving DecidableEq

/-- Model of `StabilityCalculator.validate_input`: draft below range, draft
above range, non-positive KG, unreasonably high KG, checked in that order;
first failing check decides the message. -/
def validate_input (S : ShipData α) (draft_m kg : α) : Bool × ValidationMsg α :=
  let r := get_draft_range S
  if draft_m < r.1 then (false, ValidationMsg.draftTooLow r.1)
  else if draft_m > r.2 then (false, ValidationMsg.draftTooHigh r.2)
  else if kg ≤ 0 then (false, ValidationMsg.kgNotPositive)
  else if kg > r.2 * 2 then (false, ValidationMsg.kgTooHigh (r.2 * 2))
  else (true, ValidationMsg.ok)

/-- Walk of `np.argmax`: carries the best value, best index and current
index; a STRICT improvement moves the best index, so the first occurrence
of the maximum wins, as in numpy. -/
def argmaxGo : List ℚ → ℚ → ℕ → ℕ → ℕ
  | [], _, best, _ => best
  | a :: t, b, best, i => if b < a then argmaxGo t a i (i + 1) else argmaxGo t b best (i + 1)

/-- Model of `np.argmax`: first index of the maximum, `none` on the empty
list (where numpy raises). -/
def np_argmax : List ℚ → Option ℕ
  | [] => none
  | a :: t => some (argmaxGo t a 0 1)

/-- Model of Python's `round(x, n)` on exact rationals: scale by `10 ^ n`,
round half to even, unscale. -/
def pyRound (x : ℚ) (n : ℕ) : ℚ :=
  let m : ℚ := (10 : ℚ) ^ n
  let y := x * m
  let f : ℤ := ⌊y⌋
  let r := y - (f : ℚ)
  let k : ℤ :=
    if r < 1 / 2 then f
    else if 1 / 2 < r then f + 1
    else if f % 2 = 0 then f else f + 1
  (k : ℚ) / m

/-- Model of the vanishing-angle scan of `get_stability_summary`: first
`gz < 0` wins and reports `heel_angles[i]`; the outer `none` is the
`IndexError` path (angle list shorter than the GZ list), the inner `none`
means the scan found no negative GZ. -/
def findVanishing (heel : List ℚ) : List ℚ → ℕ → Option (Option ℚ)
  | [], _ => some none
  | g :: gs, i => if g < 0 then (heel[i]?).map some else findVanishing heel gs (i + 1)

/-- Loop of the 30°-area computation in `get_stability_summary`: walks the
consecutive angle pairs, adding a trapezoid exactly when both endpoints are
`≤ 30`; the GZ list is indexed in lockstep and running out of GZ values
inside a taken branch is the `IndexError` path (`none`). -/
def area30Go : List ℚ → List ℚ → ℚ → Option ℚ
  | h0 :: h1 :: hs, gz, acc =>
    if h0 ≤ 30 ∧ h1 ≤ 30 then
      match gz with
      | g0 :: g1 :: gs => area30Go (h1 :: hs) (g1 :: gs) (acc + (g0 + g1) / 2 * (h1 - h0))
      | _ => none
    else area30Go (h1 :: hs) gz.tail acc
  | _, _, acc => some acc

/-- Model of the `area_30` accumulation of `get_stability_summary`. -/
def area_30 (heel gz : List ℚ) : Option ℚ :=
  area30Go heel gz 0

/-- Result record of `get_stability_summary`; `vanishing = none` models the
`"N/A"` entry of the returned dictionary. -/
structure StabilitySummary where
  displacement : ℚ
  kg : ℚ
  maxGz : ℚ
  maxGzAngle : ℚ
  area30 : ℚ
  vanishing : Option ℚ

/-- Model of `StabilityCalculator.get_stability_summary`: argmax of the GZ
list (numpy raises on an empty list), the max-GZ point, the vanishing-angle
scan, the 30°-area loop, then the rounded summary record.  The reported
vanishing entry reproduces the source's `round(v, 1) if v else "N/A"`
truthiness test: both `None` and `0` map to the absent (`"N/A"`) entry. -/
def get_stability_summary (heel_angles gz_values : List ℚ) (displacement kg : ℚ) :
    Option StabilitySummary :=
  match np_argmax gz_values with
  | none => none
  | some idx =>
    match gz_values[idx]?, heel_angles[idx]? with
    | some maxGz, some maxGzAngle =>
      match findVanishing heel_angles gz_values 0 with
      | none => none
      | some vanishing =>
        match area_30 heel_angles gz_values with
        | none => none
        | some area =>
          some { displacement := pyRound displacement 2
                 kg := pyRound kg 3
                 maxGz := pyRound maxGz 3
                 maxGzAngle := pyRound maxGzAngle 1
                 area30 := pyRound area 3
                 vanishing :=
                   match vanishing with
                   | some v => if v ≠ 0 then some (pyRound v 1) else none
                   | none => none }
    | _, _ => none

/-- Trapezoid sum stated the way the specification words it, over the curve
as a list of (angle, gz) pairs: each consecutive pair contributes
`(gz0 + gz1) / 2 * (a1 - a0)` exactly when both endpoint angles are `≤ 30`,
and contributes nothing otherwise. -/
def trapSumLE30 : List (ℚ × ℚ) → ℚ
  | (a0, g0) :: (a1, g1) :: rest =>
    (if a0 ≤ 30 ∧ a1 ≤ 30 then (g0 + g1) / 2 * (a1 - a0) else 0) +
      trapSumLE30 ((a1, g1) :: rest)
  | _ => 0

/-- Concrete rational ship table used to witness the parser theorems. -/
def shipQ : ShipData ℚ :=
  { drafts := [1, 2, 4]
    displacements := [10, 20, 40]
    knDisplacements := [10, 40]
    knColumns := [(0, [0, 0]), (30, [5, 8]), (60, [6, 9])] }

/-- Concrete real ship table used to witness the GZ-curve theorem. -/
def shipR : ShipData ℝ :=
  { drafts := [1]
    displacements := [10]
    knDisplacements := [10]
    knColumns := [(0, [7])] }

/-! ### Helper lemmas about `listMin`, `listMax` and `npInterp` -/

theorem listMin_cons (a : α) (t : List α) :
    listMin (a :: t) = match listMin t with
      | none => some a
      | some b => some (min a b) := rfl

theorem listMax_cons (a : α) (t : List α) :
    listMax (a :: t) = match listMax t with
      | none => some a
      | some b => some (max a b) := rfl

theorem listMin_spec (l : List α) (h : l ≠ []) :
    ∃ m, listMin l = some m ∧ m ∈ l ∧ ∀ a ∈ l, m ≤ a := by
  induction l with
  | nil => exact absurd rfl h
  | cons a t ih =>
    cases t with
    | nil => exact ⟨a, by simp [listMin], by simp, by simp⟩
    | cons b t2 =>
      obtain ⟨m, hm, hmem, hle⟩ := ih (by simp)
      refine ⟨min a m, by rw [listMin_cons, hm], ?_, ?_⟩
      · rcases le_total a m with h1 | h1
        · simp [min_eq_left h1]
        · simp only [min_eq_right h1]
          exact List.mem_cons_of_mem a hmem
      · intro x hx
        rcases List.mem_cons.mp hx with rfl | hx2
        · exact min_le_left _ _
        · exact le_trans (min_le_right _ _) (hle x hx2)

theorem listMax_spec (l : List α) (h : l ≠ []) :
    ∃ m, listMax l = some m ∧ m ∈ l ∧ ∀ a ∈ l, a ≤ m := by
  induction l with
  | nil => exact absurd rfl h
  | cons a t ih =>
    cases t with
    | nil => exact ⟨a, by simp [listMax], by simp, by simp⟩
    | cons b t2 =>
      obtain ⟨m, hm, hmem, hle⟩ := ih (by simp)
      refine ⟨max a m, by rw [listMax_cons, hm], ?_, ?_⟩
      · rcases le_total a m with h1 | h1
        · simp only [max_eq_right h1]
          exact List.mem_cons_of_mem a hmem
        · simp [max_eq_left h1]
      · intro x hx
        rcases List.mem_cons.mp hx with rfl | hx2
        · exact le_max_left _ _
        · exact le_trans (hle x hx2) (le_max_right _ _)

theorem listMin_le (l : List α) (m : α) (hm : listMin l = some m) :
    m ∈ l ∧ ∀ a ∈ l, m ≤ a := by
  have hne : l ≠ [] := by
    intro h
    subst h
    simp [listMin] at hm
  obtain ⟨m2, hm2, hmem, hle⟩ := listMin_spec l hne
  rw [hm] at hm2
  obtain rfl : m = m2 := by injection hm2
  exact ⟨hmem, hle⟩

theorem listMax_ge (l : List α) (m : α) (hm : listMax l = some m) :
    m ∈ l ∧ ∀ a ∈ l, a ≤ m := by
  have hne : l ≠ [] := by
    intro h
    subst h
    simp [listMax] at hm
  obtain ⟨m2, hm2, hmem, hle⟩ := listMax_spec l hne
  rw [hm] at hm2
  obtain rfl : m = m2 := by injection hm2
  exact ⟨hmem, hle⟩

theorem chain'_lt_getElem (l : List α) (hc : l.Chain' (· < ·)) (i j : ℕ)
    (hij : i < j) (hj : j < l.length) : l[i] < l[j] := by
  rw [List.chain'_iff_pairwise] at hc
  exact List.pairwise_iff_getElem.mp hc i j (hij.trans hj) hj hij

theorem npInterp_cons_cons_of_lt (x x0 y0 x1 y1 : α) (xs ys : List α)
    (h0 : x0 < x1) (h1 : x1 < x) :
    npInterp x (x0 :: x1 :: xs) (y0 :: y1 :: ys) = npInterp x (x1 :: xs) (y1 :: ys) := by
  have hx0 : ¬ x ≤ x0 := not_le.mpr (h0.trans h1)
  have hx1 : ¬ x ≤ x1 := not_le.mpr h1
  simp only [npInterp, npInterpGo, if_neg hx0, if_neg hx1]

theorem npInterp_bracket (xs ys : List α) (i : ℕ) (hc : xs.Chain' (· < ·))
    (hlen : ys.length = xs.length) (hi : i + 1 < xs.length) (x : α)
    (hlo : xs[i] < x) (hhi : x ≤ xs[i + 1]) :
    npInterp x xs ys = ys[i] + (ys[i + 1] - ys[i]) * (x - xs[i]) / (xs[i + 1] - xs[i]) := by
  induction xs generalizing ys i with
  | nil => simp at hi
  | cons x0 xs ih =>
    cases xs with
    | nil => simp at hi
    | cons x1 xs1 =>
      cases ys with
      | nil => simp at hlen
      | cons y0 ys0 =>
        cases ys0 with
        | nil => simp at hlen
        | cons y1 ys1 =>
          obtain ⟨h01, hctail⟩ := List.chain'_cons.mp hc
          cases i with
          | zero =>
            have hx0 : ¬ x ≤ x0 := not_le.mpr (by simpa using hlo)
            have hx1 : x ≤ x1 := by simpa using hhi
            simp only [npInterp, npInterpGo, if_neg hx0, if_pos hx1,
              List.getElem_cons_zero, List.getElem_cons_succ]
          | succ j =>
            have hj1 : j < (x1 :: xs1).length := by
              simp only [List.length_cons] at hi ⊢
              omega
            have hx1lt : x1 < x := by
              have hle0 : x1 ≤ (x1 :: xs1)[j] := by
                cases j with
                | zero => simp
                | succ j2 =>
                  exact le_of_lt (chain'_lt_getElem _ hctail 0 (j2 + 1) (Nat.succ_pos _) hj1)
              have : (x1 :: xs1)[j] < x := by simpa using hlo
              exact lt_of_le_of_lt hle0 this
            rw [npInterp_cons_cons_of_lt x x0 y0 x1 y1 xs1 ys1 h01 hx1lt]
            simp only [List.getElem_cons_succ]
            exact ih (y1 :: ys1) j hctail (by simpa using hlen)
              (by simpa using Nat.lt_of_succ_lt_succ hi)
              (by simpa using hlo) (by simpa using hhi)

theorem npInterp_node (xs ys : List α) (i : ℕ) (hc : xs.Chain' (· < ·))
    (hlen : ys.length = xs.length) (hi : i < xs.length) :
    npInterp (xs[i]) xs ys = ys[i] := by
  cases i with
  | zero =>
    cases xs with
    | nil => simp at hi
    | cons x0 xs1 =>
      cases ys with
      | nil => simp at hlen
      | cons y0 ys1 => simp [npInterp]
  | succ j =>
    have hj1 : j + 1 < xs.length := hi
    have hlt : xs[j] < xs[j + 1] := chain'_lt_getElem _ hc j (j + 1) (Nat.lt_succ_self _) hj1
    have h := npInterp_bracket xs ys j hc hlen hj1 (xs[j + 1]) hlt (le_refl _)
    rw [h]
    have hne : xs[j + 1] - xs[j] ≠ 0 := sub_ne_zero.mpr hlt.ne'
    rw [mul_div_cancel_right₀ _ hne]
    ring

theorem npInterp_midpoint (xs ys : List α) (i : ℕ) (hc : xs.Chain' (· < ·))
    (hlen : ys.length = xs.length) (hi : i + 1 < xs.length) :
    npInterp ((xs[i] + xs[i + 1]) / 2) xs ys = (ys[i] + ys[i + 1]) / 2 := by
  have hlt : xs[i] < xs[i + 1] := chain'_lt_getElem _ hc i (i + 1) (Nat.lt_succ_self _) hi
  have h1 : xs[i] < (xs[i] + xs[i + 1]) / 2 := by linarith
  have h2 : (xs[i] + xs[i + 1]) / 2 ≤ xs[i + 1] := by linarith
  rw [npInterp_bracket xs ys i hc hlen hi _ h1 h2]
  have hne : xs[i + 1] - xs[i] ≠ 0 := sub_ne_zero.mpr hlt.ne'
  field_simp
  ring

/-! ### Claim theorems -/

/-- C4: for a strictly increasing draft table, `get_displacement_from_draft`
at an exact table draft returns that row's displacement exactly, and at the
midpoint of two adjacent draft rows returns the arithmetic mean of their
displacements. -/
theorem displacementAt_node_midpoint (S : ShipData ℚ) (hc : S.drafts.Chain' (· < ·))
    (hlen : S.displacements.length = S.drafts.length) (i : ℕ) (hi : i < S.drafts.length) :
    get_displacement_from_draft S (S.drafts[i]) = some (S.displacements[i])
    ∧ ∀ (hi1 : i + 1 < S.drafts.length),
        get_displacement_from_draft S ((S.drafts[i] + S.drafts[i + 1]) / 2) =
          some ((S.displacements[i] + S.displacements[i + 1]) / 2) := by
  have hne : S.drafts ≠ [] := List.ne_nil_of_length_pos (by omega)
  obtain ⟨lo, hlo, hlomem, hlole⟩ := listMin_spec S.drafts hne
  obtain ⟨hi2, hhi, hhimem, hhile⟩ := listMax_spec S.drafts hne
  constructor
  · have hmem : S.drafts[i] ∈ S.drafts := List.getElem_mem _
    have hnot : ¬ (S.drafts[i] < lo ∨ S.drafts[i] > hi2) := by
      push_neg
      exact ⟨hlole _ hmem, hhile _ hmem⟩
    simp only [get_displacement_from_draft, hlo, hhi, if_neg hnot]
    rw [npInterp_node S.drafts S.displacements i hc hlen hi]
  · intro hi1
    have hlt : S.drafts[i] < S.drafts[i + 1] :=
      chain'_lt_getElem _ hc i (i + 1) (Nat.lt_succ_self _) hi1
    have hmem : S.drafts[i] ∈ S.drafts := List.getElem_mem _
    have hmem1 : S.drafts[i + 1] ∈ S.drafts := List.getElem_mem _
    have hnot : ¬ ((S.drafts[i] + S.drafts[i + 1]) / 2 < lo
        ∨ (S.drafts[i] + S.drafts[i + 1]) / 2 > hi2) := by
      push_neg
      constructor
      · have := hlole _ hmem
        linarith
      · have := hhile _ hmem1
        linarith
    simp only [get_displacement_from_draft, hlo, hhi, if_neg hnot]
    rw [npInterp_midpoint S.drafts S.displacements i hc hlen hi1]

/-- C4 witness: on the concrete table `shipQ`, draft 1 gives displacement
10 exactly and the midpoint draft 3/2 gives the mean displacement 15. -/
theorem displacementAt_node_midpoint_witness :
    get_displacement_from_draft shipQ 1 = some 10
    ∧ get_displacement_from_draft shipQ (3 / 2) = some 15 := by
  have h := displacementAt_node_midpoint shipQ (by norm_num [shipQ, List.chain'_cons])
    (by decide) 0 (by decide)
  constructor
  · simpa [shipQ] using h.1
  · have h2 := h.2 (by decide)
    norm_num [shipQ] at h2
    exact h2

/-- C6: `get_displacement_from_draft` fails whenever the draft is strictly
below the table minimum or strictly above the table maximum, and succeeds
at either exact boundary value. -/
theorem displacementAt_range_error (S : ShipData ℚ) (lo hi : ℚ)
    (hlo : listMin S.drafts = some lo) (hhi : listMax S.drafts = some hi) :
    (∀ draft : ℚ, draft < lo ∨ draft > hi → get_displacement_from_draft S draft = none)
    ∧ (get_displacement_from_draft S lo).isSome
    ∧ (get_displacement_from_draft S hi).isSome := by
  obtain ⟨hlomem, hlole⟩ := listMin_le S.drafts lo hlo
  obtain ⟨hhimem, hhile⟩ := listMax_ge S.drafts hi hhi
  have hlohi : lo ≤ hi := hhile lo hlomem
  refine ⟨?_, ?_, ?_⟩
  · intro draft hout
    simp only [get_displacement_from_draft, hlo, hhi, if_pos hout]
  · have hnot : ¬ (lo < lo ∨ lo > hi) := by
      push_neg
      exact ⟨le_refl lo, hlohi⟩
    simp only [get_displacement_from_draft, hlo, hhi, if_neg hnot, Option.isSome_some]
  · have hnot : ¬ (hi < lo ∨ hi > hi) := by
      push_neg
      exact ⟨hlohi, le_refl hi⟩
    simp only [get_displacement_from_draft, hlo, hhi, if_neg hnot, Option.isSome_some]

/-- C6 witness: on `shipQ` (draft range `[1, 4]`) a draft of 0 fails, and
drafts exactly 1 and exactly 4 succeed. -/
theorem displacementAt_range_error_witness :
    get_displacement_from_draft shipQ 0 = none
    ∧ (get_displacement_from_draft shipQ 1).isSome
    ∧ (get_displacement_from_draft shipQ 4).isSome := by
  have h := displacementAt_range_error shipQ 1 4 (by decide) (by decide)
  exact ⟨h.1 0 (by norm_num), h.2.1, h.2.2⟩

theorem findColumn_isSome (cols : List (α × List α)) (a : α)
    (h : a ∈ cols.map Prod.fst) : (findColumn cols a).isSome := by
  obtain ⟨c, hc, rfl⟩ := List.mem_map.mp h
  have hmem : c ∈ cols.filter (fun c2 => decide (c2.1 = c.1)) := by
    simp [List.mem_filter, hc]
  have hne : cols.filter (fun c2 => decide (c2.1 = c.1)) ≠ [] := List.ne_nil_of_mem hmem
  simp only [findColumn, Option.isSome_map']
  exact List.getLast?_isSome.mpr hne

theorem findColumn_eq (cols : List (α × List α)) (a : α) (v : List α)
    (hnodup : (cols.map Prod.fst).Nodup) (hmem : (a, v) ∈ cols) :
    findColumn cols a = some v := by
  induction cols with
  | nil => simp at hmem
  | cons c t ih =>
    simp only [List.map_cons, List.nodup_cons] at hnodup
    obtain ⟨hnot, hnd⟩ := hnodup
    rcases List.mem_cons.mp hmem with rfl | hmem2
    · have htail : t.filter (fun c2 => decide (c2.1 = (a, v).1)) = [] := by
        rw [List.filter_eq_nil_iff]
        intro c2 hc2
        simp only [decide_eq_true_eq]
        intro heq
        have hin : c2.1 ∈ t.map Prod.fst := List.mem_map_of_mem Prod.fst hc2
        rw [heq] at hin
        exact hnot hin
      simp [findColumn, List.filter_cons, htail]
    · have ha : a ∈ t.map Prod.fst := List.mem_map_of_mem Prod.fst hmem2
      have hcne : ¬ (c.1 = a) := fun h => hnot (h ▸ ha)
      have hrec := ih hnd hmem2
      simp only [findColumn, List.filter_cons, decide_eq_true_eq, if_neg hcne] at hrec ⊢
      exact hrec

/-- C7: `get_kn_value` fails exactly when the heel angle is outside
`[min(angles), max(angles)]` or the displacement is outside the min/max of
the displacement axis; in particular at the exact bounds it succeeds. -/
theorem knAt_range_error (S : ShipData ℚ) (aMin aMax dMin dMax : ℚ)
    (ha1 : listMin (knAngles S) = some aMin) (ha2 : listMax (knAngles S) = some aMax)
    (hd1 : listMin S.knDisplacements = some dMin) (hd2 : listMax S.knDisplacements = some dMax)
    (displacement heel : ℚ) :
    get_kn_value S displacement heel = none ↔
      (heel < aMin ∨ heel > aMax ∨ displacement < dMin ∨ displacement > dMax) := by
  simp only [get_kn_value, ha1, ha2, hd1, hd2]
  by_cases hA : heel < aMin ∨ heel > aMax
  · rw [if_pos hA]
    simp only [true_iff]
    tauto
  · rw [if_neg hA]
    push_neg at hA
    by_cases hD : displacement < dMin ∨ displacement > dMax
    · rw [if_pos hD]
      simp only [true_iff]
      tauto
    · rw [if_neg hD]
      push_neg at hD
      have hRHS : ¬ (heel < aMin ∨ heel > aMax ∨ displacement < dMin ∨ displacement > dMax) := by
        push_neg
        exact ⟨hA.1, hA.2, hD.1, hD.2⟩
      obtain ⟨haminmem, _⟩ := listMin_le _ _ ha1
      obtain ⟨hamaxmem, _⟩ := listMax_ge _ _ ha2
      have hmemLow : aMin ∈ (knAngles S).filter (fun a => decide (a ≤ heel)) := by
        simp only [List.mem_filter, decide_eq_true_eq]
        exact ⟨haminmem, hA.1⟩
      have hmemHigh : aMax ∈ (knAngles S).filter (fun a => decide (heel ≤ a)) := by
        simp only [List.mem_filter, decide_eq_true_eq]
        exact ⟨hamaxmem, hA.2⟩
      obtain ⟨aLow, hALow, hALowmem, _⟩ := listMax_spec _ (List.ne_nil_of_mem hmemLow)
      obtain ⟨aHigh, hAHigh, hAHighmem, _⟩ := listMin_spec _ (List.ne_nil_of_mem hmemHigh)
      simp only [hALow, hAHigh]
      have hLowIn : aLow ∈ knAngles S := (List.mem_filter.mp hALowmem).1
      have hHighIn : aHigh ∈ knAngles S := (List.mem_filter.mp hAHighmem).1
      obtain ⟨colLow, hcolLow⟩ :=
        Option.isSome_iff_exists.mp (findColumn_isSome S.knColumns aLow hLowIn)
      obtain ⟨colHigh, hcolHigh⟩ :=
        Option.isSome_iff_exists.mp (findColumn_isSome S.knColumns aHigh hHighIn)
      simp only [hcolLow, hcolHigh]
      simp only [hRHS, iff_false]
      split <;> simp

/-- C7 witness: on `shipQ` (angle range `[0, 60]`, displacement range
`[10, 40]`) a heel of 70° fails, while the exact upper bound 60° succeeds. -/
theorem knAt_range_error_witness :
    get_kn_value shipQ 10 70 = none ∧ get_kn_value shipQ 10 60 ≠ none := by
  constructor
  · exact (knAt_range_error shipQ 0 60 10 40 (by decide) (by decide) (by decide) (by decide)
      10 70).mpr (by norm_num)
  · intro h
    have h2 := (knAt_range_error shipQ 0 60 10 40 (by decide) (by decide) (by decide) (by decide)
      10 60).mp h
    norm_num at h2

/-- C5: when the queried heel angle exactly matches one of the table's
angle columns (angles pairwise distinct) and the displacement is in range,
`get_kn_value` returns the 1D interpolation of that single column at the
displacement — the other columns' values do not enter the result. -/
theorem knAt_exact_angle_column (S : ShipData ℚ) (heel : ℚ) (vals : List ℚ)
    (hmem : (heel, vals) ∈ S.knColumns) (hnodup : (knAngles S).Nodup)
    (dMin dMax : ℚ) (hd1 : listMin S.knDisplacements = some dMin)
    (hd2 : listMax S.knDisplacements = some dMax) (displacement : ℚ)
    (hdlo : dMin ≤ displacement) (hdhi : displacement ≤ dMax) :
    get_kn_value S displacement heel = some (npInterp displacement S.knDisplacements vals) := by
  have hang : heel ∈ knAngles S := by
    simpa [knAngles] using List.mem_map_of_mem Prod.fst hmem
  have hne : knAngles S ≠ [] := List.ne_nil_of_mem hang
  obtain ⟨aMin, haMin, _, haMinle⟩ := listMin_spec _ hne
  obtain ⟨aMax, haMax, _, haMaxle⟩ := listMax_spec _ hne
  simp only [get_kn_value, haMin, haMax, hd1, hd2]
  have hA : ¬ (heel < aMin ∨ heel > aMax) := by
    push_neg
    exact ⟨haMinle _ hang, haMaxle _ hang⟩
  rw [if_neg hA]
  have hD : ¬ (displacement < dMin ∨ displacement > dMax) := by
    push_neg
    exact ⟨hdlo, hdhi⟩
  rw [if_neg hD]
  have hmf : heel ∈ (knAngles S).filter (fun a => decide (a ≤ heel)) := by
    simp only [List.mem_filter, decide_eq_true_eq]
    exact ⟨hang, le_refl heel⟩
  have hfiltLow : listMax ((knAngles S).filter (fun a => decide (a ≤ heel))) = some heel := by
    obtain ⟨M, hM, hMmem, hMle⟩ := listMax_spec _ (List.ne_nil_of_mem hmf)
    have h1 : M ≤ heel := by
      have := (List.mem_filter.mp hMmem).2
      simpa using this
    have h2 : heel ≤ M := hMle heel hmf
    rw [hM, le_antisymm h1 h2]
  have hmf2 : heel ∈ (knAngles S).filter (fun a => decide (heel ≤ a)) := by
    simp only [List.mem_filter, decide_eq_true_eq]
    exact ⟨hang, le_refl heel⟩
  have hfiltHigh : listMin ((knAngles S).filter (fun a => decide (heel ≤ a))) = some heel := by
    obtain ⟨M, hM, hMmem, hMle⟩ := listMin_spec _ (List.ne_nil_of_mem hmf2)
    have h1 : heel ≤ M := by
      have := (List.mem_filter.mp hMmem).2
      simpa using this
    have h2 : M ≤ heel := hMle heel hmf2
    rw [hM, le_antisymm h2 h1]
  simp only [hfiltLow, hfiltHigh]
  have hfc : findColumn S.knColumns heel = some vals := findColumn_eq _ _ _ hnodup hmem
  simp only [hfc]
  simp

/-- C5 witness: on `shipQ`, heel 30° matches the column `(30, [5, 8])`, and
the result at displacement 25 is that column's own interpolation. -/
theorem knAt_exact_angle_column_witness :
    get_kn_value shipQ 25 30 = some (npInterp 25 shipQ.knDisplacements [5, 8])
    ∧ get_kn_value shipQ 25 30 = some (13 / 2) := by
  have h := knAt_exact_angle_column shipQ 30 [5, 8] (by decide) (by decide)
    10 40 (by decide) (by decide) 25 (by norm_num) (by norm_num)
  refine ⟨h, ?_⟩
  rw [h]
  norm_num [shipQ, npInterp, npInterpGo]

/-- C8: `validate_input` returns `false` exactly when the draft is below or
above the table range, the KG non-positive, or the KG above twice the
maximum draft; the message is decided by the first failing check in that
order, and a draft exactly at either boundary with sane KG is accepted. -/
theorem validate_input_checks (S : ShipData ℚ) (minD maxD : ℚ)
    (hr : get_draft_range S = (minD, maxD)) (hle : minD ≤ maxD) :
    (∀ draft kg : ℚ,
      ((validate_input S draft kg).1 = false ↔
        (draft < minD ∨ draft > maxD ∨ kg ≤ 0 ∨ kg > maxD * 2))
      ∧ (draft < minD → (validate_input S draft kg).2 = ValidationMsg.draftTooLow minD)
      ∧ (¬ draft < minD → draft > maxD →
          (validate_input S draft kg).2 = ValidationMsg.draftTooHigh maxD)
      ∧ (¬ draft < minD → ¬ draft > maxD → kg ≤ 0 →
          (validate_input S draft kg).2 = ValidationMsg.kgNotPositive)
      ∧ (¬ draft < minD → ¬ draft > maxD → ¬ kg ≤ 0 → kg > maxD * 2 →
          (validate_input S draft kg).2 = ValidationMsg.kgTooHigh (maxD * 2))
      ∧ (¬ draft < minD → ¬ draft > maxD → ¬ kg ≤ 0 → ¬ kg > maxD * 2 →
          validate_input S draft kg = (true, ValidationMsg.ok)))
    ∧ (∀ kg : ℚ, 0 < kg → kg ≤ maxD * 2 →
        (validate_input S minD kg).1 = true ∧ (validate_input S maxD kg).1 = true) := by
  constructor
  · intro draft kg
    simp only [validate_input, hr]
    split_ifs with h1 h2 h3 h4
    · exact ⟨⟨fun _ => Or.inl h1, fun _ => rfl⟩, fun _ => rfl, fun hx _ => absurd h1 hx,
        fun hx _ _ => absurd h1 hx, fun hx _ _ _ => absurd h1 hx, fun hx _ _ _ => absurd h1 hx⟩
    · exact ⟨⟨fun _ => Or.inr (Or.inl h2), fun _ => rfl⟩, fun hx => absurd hx h1,
        fun _ _ => rfl, fun _ hy _ => absurd h2 hy, fun _ hy _ _ => absurd h2 hy,
        fun _ hy _ _ => absurd h2 hy⟩
    · exact ⟨⟨fun _ => Or.inr (Or.inr (Or.inl h3)), fun _ => rfl⟩, fun hx => absurd hx h1,
        fun _ hy => absurd hy h2, fun _ _ _ => rfl, fun _ _ hz _ => absurd h3 hz,
        fun _ _ hz _ => absurd h3 hz⟩
    · exact ⟨⟨fun _ => Or.inr (Or.inr (Or.inr h4)), fun _ => rfl⟩, fun hx => absurd hx h1,
        fun _ hy => absurd hy h2, fun _ _ hz => absurd hz h3, fun _ _ _ _ => rfl,
        fun _ _ _ hw => absurd h4 hw⟩
    · refine ⟨⟨fun hx => absurd hx (by simp), fun hRHS => ?_⟩, fun hx => absurd hx h1,
        fun _ hy => absurd hy h2, fun _ _ hz => absurd hz h3, fun _ _ _ hw => absurd hw h4,
        fun _ _ _ _ => rfl⟩
      rcases hRHS with a | a | a | a
      exacts [absurd a h1, absurd a h2, absurd a h3, absurd a h4]
  · intro kg hk1 hk2
    constructor
    · simp only [validate_input, hr]
      split_ifs with h1 h2 h3 h4 <;> first | rfl | linarith
    · simp only [validate_input, hr]
      split_ifs with h1 h2 h3 h4 <;> first | rfl | linarith

/-- C8 witness: on `shipQ` (draft range `[1, 4]`), draft 1 with KG 2 is
accepted and draft 0 with KG 2 is rejected. -/
theorem validate_input_checks_witness :
    (validate_input shipQ 1 2).1 = true ∧ (validate_input shipQ 0 2).1 = false := by
  have h := validate_input_checks shipQ 1 4 (by decide) (by norm_num)
  exact ⟨((h.2 2 (by norm_num) (by norm_num)).1), (h.1 0 2).1.mpr (by norm_num)⟩

/-- C9: `calculate_gz` is the composition of `calculate_kg` and
`calculate_gz_with_kg` — same heel angles, same GZ values, same
displacement, with the computed KG appended as the fourth component; this
holds for every draft, load, heel-angle list and even on the error paths,
and for an arbitrary sine function, so the two duplicated curve-building
loops are equivalent. -/
theorem calculate_gz_refines (S : ShipData ℚ) (sinDeg : ℚ → ℚ) (draft_m load_kg : ℚ)
    (heel_angles : Option (List ℚ)) :
    calculate_gz S sinDeg draft_m load_kg heel_angles =
      (calculate_gz_with_kg S sinDeg draft_m (calculate_kg load_kg draft_m) heel_angles).map
        (fun r => (r.1, r.2.1, r.2.2, calculate_kg load_kg draft_m)) := by
  cases hd : get_displacement_from_draft S draft_m with
  | none => simp [calculate_gz, calculate_gz_with_kg, hd]
  | some d =>
    simp only [calculate_gz, calculate_gz_with_kg, hd]
    rw [Option.map_map]
    rfl

theorem mapM_kn_map (S : ShipData ℝ) (disp kg : ℝ) (sinDeg : ℝ → ℝ) (l : List ℝ)
    (h : ∀ a ∈ l, (get_kn_value S disp a).isSome) :
    l.mapM (fun a => (get_kn_value S disp a).map (fun kn => kn - kg * sinDeg a))
      = some (l.map (fun a => (get_kn_value S disp a).getD 0 - kg * sinDeg a)) := by
  induction l with
  | nil => rfl
  | cons a t ih =>
    obtain ⟨kn, hkn⟩ := Option.isSome_iff_exists.mp (h a (List.mem_cons_self a t))
    have ht := ih (fun b hb => h b (List.mem_cons_of_mem a hb))
    rw [List.mapM_cons, hkn, ht]
    simp [hkn]

/-- C1: with a valid displacement lookup and in-range heel angles,
`calculate_gz_with_kg` returns the given angles in order, the displacement,
and one GZ per angle computed as `kn - kg * sin(radians(angle))` with
`kn = get_kn_value(displacement, angle)`; at a heel angle of 0° the GZ
equals the KN value exactly, for every draft/KG combination. -/
theorem buildGZCurve_formula_zero_angle (S : ShipData ℝ) (draft_m kg : ℝ)
    (angles : List ℝ) (disp : ℝ)
    (hd : get_displacement_from_draft S draft_m = some disp)
    (hk : ∀ a ∈ angles, (get_kn_value S disp a).isSome) :
    calculate_gz_with_kg S (fun a => Real.sin (a * Real.pi / 180)) draft_m kg (some angles)
      = some (angles,
          angles.map (fun a => (get_kn_value S disp a).getD 0
            - kg * Real.sin (a * Real.pi / 180)), disp)
    ∧ ∀ a ∈ angles, a = 0 →
        (get_kn_value S disp a).getD 0 - kg * Real.sin (a * Real.pi / 180)
          = (get_kn_value S disp a).getD 0 := by
  constructor
  · simp only [calculate_gz_with_kg, hd, Option.getD_some]
    rw [mapM_kn_map S disp kg (fun a => Real.sin (a * Real.pi / 180)) angles hk]
    rfl
  · intro a ha h0
    subst h0
    simp

/-- C1 witness: on the concrete real table `shipR`, draft 1 (displacement
10) and KG 2 with the single heel angle 0° produce exactly the curve given
by the KN-minus-KG-sine formula. -/
theorem buildGZCurve_formula_zero_angle_witness :
    calculate_gz_with_kg shipR (fun a => Real.sin (a * Real.pi / 180)) 1 2 (some [0])
      = some ([0], [0].map (fun a => (get_kn_value shipR 10 a).getD 0
          - 2 * Real.sin (a * Real.pi / 180)), 10) := by
  have hd : get_displacement_from_draft shipR 1 = some 10 := by
    norm_num [get_displacement_from_draft, shipR, listMin, listMax, npInterp]
  have hk : ∀ a ∈ ([0] : List ℝ), (get_kn_value shipR 10 a).isSome := by
    intro a ha
    simp only [List.mem_singleton] at ha
    subst ha
    have h1 : knAngles shipR = [(0 : ℝ)] := by simp [knAngles, shipR]
    have h2 : listMin (knAngles shipR) = some 0 := by rw [h1]; exact rfl
    have h3 : listMax (knAngles shipR) = some 0 := by rw [h1]; exact rfl
    have h4 : listMin shipR.knDisplacements = some 10 := rfl
    have h5 : listMax shipR.knDisplacements = some 10 := rfl
    have hf1 : (knAngles shipR).filter (fun a => decide (a ≤ (0 : ℝ))) = [0] := by
      rw [h1]
      norm_num [List.filter_cons]
    have hf2 : (knAngles shipR).filter (fun a => decide ((0 : ℝ) ≤ a)) = [0] := by
      rw [h1]
      norm_num [List.filter_cons]
    have h6 : findColumn shipR.knColumns (0 : ℝ) = some [7] := by
      norm_num [findColumn, shipR, List.filter_cons]
    have h7 : listMax [(0 : ℝ)] = some 0 := rfl
    have h8 : listMin [(0 : ℝ)] = some 0 := rfl
    simp only [get_kn_value, h2, h3, h4, h5]
    norm_num
    simp only [hf1, hf2, h7, h8, h6]
    simp
  exact (buildGZCurve_formula_zero_angle shipR 1 2 [0] 10 hd hk).1

theorem pyRound_eq_self (x : ℚ) (d : ℕ) (k : ℤ) (hk : x * 10 ^ d = (k : ℚ)) :
    pyRound x d = x := by
  simp only [pyRound, hk, Int.floor_intCast]
  norm_num
  rw [div_eq_iff (by positivity : ((10 : ℚ)) ^ d ≠ 0)]
  exact hk.symm

theorem area30Go_eq (heel : List ℚ) : ∀ (gz : List ℚ) (acc : ℚ),
    heel.length ≤ gz.length →
    area30Go heel gz acc = some (acc + trapSumLE30 (heel.zip gz)) := by
  induction heel with
  | nil => intro gz acc _; simp [area30Go, trapSumLE30]
  | cons h0 t ih =>
    intro gz acc hlen
    cases t with
    | nil =>
      cases gz with
      | nil => simp at hlen
      | cons g0 gs => simp [area30Go, trapSumLE30]
    | cons h1 hs =>
      cases gz with
      | nil => simp at hlen
      | cons g0 gz1 =>
        cases gz1 with
        | nil => simp at hlen
        | cons g1 gs =>
          simp only [area30Go]
          have hlen2 : (h1 :: hs).length ≤ (g1 :: gs).length := by
            simp only [List.length_cons] at hlen ⊢
            omega
          split_ifs with hcond
          · rw [ih (g1 :: gs) _ hlen2]
            simp only [List.zip_cons_cons, List.zip, List.zipWith_cons_cons,
              trapSumLE30, if_pos hcond]
            congr 1
            ring
          · rw [List.tail_cons, ih (g1 :: gs) _ hlen2]
            simp only [List.zip_cons_cons, List.zip, List.zipWith_cons_cons,
              trapSumLE30, if_neg hcond]
            congr 1
            ring

/-- C3: the 30°-area accumulation equals the trapezoid sum over exactly the
consecutive angle pairs with both endpoints `≤ 30` (a pair straddling 30°
contributes nothing), and on angles `[0,10,20,30,40]` with unit GZ it is
30, also as reported through `get_stability_summary`. -/
theorem area30_trapezoid_policy (heel gz : List ℚ) (hlen : heel.length = gz.length) :
    area_30 heel gz = some (trapSumLE30 (heel.zip gz))
    ∧ area_30 [0, 10, 20, 30, 40] [1, 1, 1, 1, 1] = some 30
    ∧ (get_stability_summary [0, 10, 20, 30, 40] [1, 1, 1, 1, 1] 1000 5).map
        (fun s => s.area30) = some 30 := by
  refine ⟨?_, by norm_num [area_30, area30Go], ?_⟩
  · have h := area30Go_eq heel gz 0 (le_of_eq hlen)
    simpa [area_30] using h
  · have hps : pyRound 30 3 = 30 := pyRound_eq_self 30 3 30000 (by norm_num)
    norm_num [get_stability_summary, np_argmax, argmaxGo, area_30, area30Go,
      findVanishing, hps]

/-- C3 witness: on the two-point curve `[(0, 2), (10, 4)]` the area loop
returns exactly the spec-side trapezoid sum. -/
theorem area30_trapezoid_policy_witness :
    area_30 [0, 10] [2, 4] = some (trapSumLE30 ([0, 10].zip [2, 4]))
    ∧ area_30 [0, 10] [2, 4] = some 30 := by
  refine ⟨(area30_trapezoid_policy [0, 10] [2, 4] (by decide)).1, by norm_num [area_30, area30Go]⟩

theorem argmaxGo_lt (t : List ℚ) : ∀ (b : ℚ) (best i : ℕ), best < i →
    argmaxGo t b best i < i + t.length := by
  induction t with
  | nil =>
    intro b best i h
    simpa [argmaxGo] using h
  | cons a t2 ih =>
    intro b best i h
    simp only [argmaxGo, List.length_cons]
    split_ifs with hba
    · have h2 := ih a i (i + 1) (Nat.lt_succ_self i)
      omega
    · have h2 := ih b best (i + 1) (Nat.lt_succ_of_lt h)
      omega

theorem np_argmax_lt (gz : List ℚ) (idx : ℕ) (h : np_argmax gz = some idx) :
    idx < gz.length := by
  cases gz with
  | nil => simp [np_argmax] at h
  | cons a t =>
    simp only [np_argmax, Option.some_inj] at h
    subst h
    have h2 := argmaxGo_lt t a 0 1 Nat.zero_lt_one
    simp only [List.length_cons]
    omega

theorem findVanishing_isSome (heel : List ℚ) : ∀ (gs : List ℚ) (i : ℕ),
    i + gs.length ≤ heel.length → (findVanishing heel gs i).isSome := by
  intro gs
  induction gs with
  | nil =>
    intro i _
    simp [findVanishing]
  | cons g t ih =>
    intro i h
    simp only [findVanishing]
    split_ifs with hg
    · have hi : i < heel.length := by
        simp only [List.length_cons] at h
        omega
      rw [List.getElem?_eq_getElem hi]
      simp
    · exact ih (i + 1) (by simp only [List.length_cons] at h; omega)

/-- C10: on any curve with equally long angle and GZ lists and at least one
point, the argmax extraction succeeds and `get_stability_summary` returns a
complete summary; on the empty curve it fails instead of returning a
summary — non-emptiness is a precondition of the interface. -/
theorem summary_requires_nonempty (heel gz : List ℚ) (d kg : ℚ)
    (hlen : heel.length = gz.length) (hne : gz ≠ []) :
    (np_argmax gz).isSome ∧ (get_stability_summary heel gz d kg).isSome
    ∧ get_stability_summary [] [] d kg = none := by
  refine ⟨?_, ?_, rfl⟩
  · cases gz with
    | nil => exact absurd rfl hne
    | cons a t => simp [np_argmax]
  · cases hidx : np_argmax gz with
    | none =>
      cases gz with
      | nil => exact absurd rfl hne
      | cons a t => simp [np_argmax] at hidx
    | some idx =>
      have hlt : idx < gz.length := np_argmax_lt gz idx hidx
      have hlt2 : idx < heel.length := by omega
      have hg1 : gz[idx]? = some gz[idx] := List.getElem?_eq_getElem hlt
      have hg2 : heel[idx]? = some heel[idx] := List.getElem?_eq_getElem hlt2
      have hv := findVanishing_isSome heel gz 0 (by omega)
      obtain ⟨v, hveq⟩ := Option.isSome_iff_exists.mp hv
      have ha := area30Go_eq heel gz 0 (le_of_eq hlen)
      simp only [get_stability_summary, hidx, hg1, hg2, hveq, area_30, ha]
      simp

/-- C10 witness: a one-point curve yields a summary and the empty curve
yields none. -/
theorem summary_requires_nonempty_witness :
    (np_argmax [(1 : ℚ)]).isSome ∧ (get_stability_summary [0] [1] 100 5).isSome
    ∧ get_stability_summary [] [] 100 5 = none := by
  exact summary_requires_nonempty [0] [1] 100 5 (by decide) (by decide)

/-- C2 (code evidence): on the curve with angles `[0, 10]` and GZ values
`[-1/10, 1/2]` the scan finds its first negative GZ at angle 0, yet the
summary reports the vanishing angle as absent (`"N/A"`), because the
source guards the entry with the truthiness test `if vanishing_angle`,
which treats the angle `0` like `None`. -/
theorem vanishing_zero_reported_absent :
    findVanishing [0, 10] [-1/10, 1/2] 0 = some (some 0)
    ∧ (get_stability_summary [0, 10] [-1/10, 1/2] 100 5).map (fun s => s.vanishing)
        = some none
    ∧ ((-1 : ℚ)/10 < 0) := by
  refine ⟨by norm_num [findVanishing], ?_, by norm_num⟩
  norm_num [get_stability_summary, np_argmax, argmaxGo, area_30, area30Go, findVanishing]

end Loadicator
